import Mathlib

/-!
Shallow embedding of `txtai/embeddings/search.py` (class `Search`): a batch
search action that runs an index search (dense ANN, sparse term-frequency, or
hybrid with score fusion) and, when a database is configured, an
index + database search driven by parsed structured queries.

Modelling conventions:
* scores are rationals (`ℚ`), identifiers are naturals;
* the external collaborators (ANN index, sparse scoring, database) are opaque
  function fields of a `Collaborators` structure;
* Python `None`-or-list values are `Option`s, and Python truthiness of such a
  value (`if dense and sparse:`, `return dense if dense else sparse`) is made
  explicit via `pyTruthy`;
* a Python dict with insertion-order iteration is an association list where
  updating an existing key keeps its position and a new key is appended;
* Python's stable `sorted(..., key=lambda x: x[1], reverse=True)` is
  `sortDesc`, a stable insertion sort, descending by score;
* a Python runtime error (`TypeError`) is `Except.error`.
-/

namespace Txtai

/-- A raw query string. -/
abbrev Query := String

/-- An embedding vector (opaque to this component). -/
abbrev Vec := List ℚ

/-- One per-query result list of (identifier, score) pairs. -/
abbrev RankedList := List (Nat × ℚ)

/-- An opaque database row result returned by `database.search`. -/
abbrev DBRow := Nat

/-- The parsed form of one database query, as produced by `database.parse`:
`hasSelect` models `"select" in parse`, `limitClause` models
`parse.get("limit")` (a string when present), `similar` models
`parse["similar"]` (each clause is a first argument plus remaining arguments;
an absent key is the empty list), `whereClause` models `parse.get("where")`. -/
structure ParsedQuery where
  hasSelect : Bool
  limitClause : Option String
  similar : List (String × List String)
  whereClause : Option String
deriving DecidableEq

/-- Static configuration of a `Search` instance: which collaborators exist
(`embeddings.ann`, sparse `embeddings.scoring`, `embeddings.database`,
`embeddings.query`), the `indexids` flag, the sparse collaborator's
`isnormalized()` capability flag (a fixed capability), and the optional
`config["ids"]` lookup table. -/
structure SearchConfig where
  hasAnn : Bool
  hasScoring : Bool
  hasDatabase : Bool
  hasQuery : Bool
  indexids : Bool
  isnormalized : Bool
  ids : Option (List Nat)

/-- The black-box collaborator operations used by `Search`:
`batchtransform` embeds query texts, `annSearch` is `ann.search`,
`batchsearch` is `scoring.batchsearch`, `dbParse` is `database.parse`,
`queryTranslate` is the `embeddings.query` translator, `dbSearch` is
`database.search`. -/
structure Collaborators where
  batchtransform : List Query → List Vec
  annSearch : List Vec → Nat → List RankedList
  batchsearch : List Query → Nat → List RankedList
  dbParse : Query → ParsedQuery
  queryTranslate : Query → Query
  dbSearch : ParsedQuery → List RankedList → Nat → DBRow

/-- Python truthiness of a `None`-or-list value: `None` and `[]` are falsy. -/
def pyTruthy (x : Option (List RankedList)) : Bool :=
  match x with
  | none => false
  | some l => !l.isEmpty

/-- Python truthiness of a `None`-or-string value: `None` and `""` are falsy. -/
def pyStrTruthy (x : Option String) : Bool :=
  match x with
  | none => false
  | some s => !s.isEmpty

/-- Python `str.isdigit()` (ASCII digits): true on a non-empty all-digit string. -/
def pyIsDigit (s : String) : Bool :=
  !s.isEmpty && s.toList.all Char.isDigit

/-- Python `int(s)` on an all-digit string. -/
def pyInt (s : String) : Nat :=
  (s.toNat?).getD 0

/-- Python `str.split()` with no arguments: split on whitespace runs,
dropping empty pieces. -/
def pySplit (s : String) : List String :=
  (s.split Char.isWhitespace).filter (fun t => !t.isEmpty)

/-- Hybrid score weights: `weights` may be a single number or a pair
`[dense, sparse]`. -/
inductive Weights where
  | scalar (w : ℚ)
  | pair (wd ws : ℚ)

/-- Expansion `if isinstance(weights, (int, float)): weights = [weights, 1 - weights]`. -/
def Weights.expand : Weights → ℚ × ℚ
  | .scalar w => (w, 1 - w)
  | .pair wd ws => (wd, ws)

/-! ### Fusion engine (`Search.search`, hybrid branch) -/

/-- The per-entry hybrid contribution, from the loop body of `Search.search`:
`score * weights[v]` when `scoring.isnormalized()`, else
`(1.0 / (r + 1)) * weights[v]` with `r` the 0-based enumeration index. -/
def entryContrib (norm : Bool) (w : ℚ) (r : Nat) (score : ℚ) : ℚ :=
  if norm then score * w else (1 / (r + 1 : ℚ)) * w

/-- The dict update `uids[uid] = uids.get(uid, 0.0); uids[uid] += c`:
an existing key is updated in place, a new key is appended with value `0 + c`
(stored as `c`). Mirrors lines 93-103 of the source. -/
def dictAdd (m : List (Nat × ℚ)) (uid : Nat) (c : ℚ) : List (Nat × ℚ) :=
  match m with
  | [] => [(uid, c)]
  | (k, v) :: rest => if k = uid then (k, v + c) :: rest else (k, v) :: dictAdd rest uid c

/-- The inner loop `for r, (uid, score) in enumerate(...)` of the fusion:
visit each entry at 0-based rank `r`, adding its hybrid contribution to the
accumulation dict. -/
def visitEntries (norm : Bool) (w : ℚ) : Nat → RankedList → List (Nat × ℚ) → List (Nat × ℚ)
  | _, [], m => m
  | r, (uid, score) :: rest, m =>
      visitEntries norm w (r + 1) rest (dictAdd m uid (entryContrib norm w r score))

/-- The iterable actually visited for one side: `scores if weights[v] > 0
else []` (a side with non-positive weight is never visited). -/
def visited (w : ℚ) (l : RankedList) : RankedList :=
  if 0 < w then l else []

/-- Stable insertion step for the descending sort: a new element passes over
strictly greater scores only, so elements with equal scores keep their
original relative order. -/
def insertDesc (p : Nat × ℚ) : List (Nat × ℚ) → List (Nat × ℚ)
  | [] => [p]
  | q :: rest => if p.2 < q.2 then q :: insertDesc p rest else p :: q :: rest

/-- Python's stable `sorted(uids.items(), key=lambda x: x[1], reverse=True)`:
descending by score, ties kept in insertion order. A stable sort under a
total preorder is unique, so this insertion sort is the model of the
source's sort call. -/
def sortDesc : List (Nat × ℚ) → List (Nat × ℚ)
  | [] => []
  | p :: rest => insertDesc p (sortDesc rest)

/-- The accumulation dict built for one query of a hybrid fusion: the dense
side (`v = 0`, weight `wd`) is processed, then the sparse side (`v = 1`,
weight `ws`), exactly as `for v, scores in enumerate(vectors)`. -/
def fuseMap (norm : Bool) (wd ws : ℚ) (d s : RankedList) : List (Nat × ℚ) :=
  visitEntries norm ws 0 (visited ws s) (visitEntries norm wd 0 (visited wd d) [])

/-- One query of the hybrid fusion:
`sorted(uids.items(), key=lambda x: x[1], reverse=True)[:limit]`. -/
def fuseQuery (norm : Bool) (wd ws : ℚ) (d s : RankedList) (limit : Nat) : RankedList :=
  (sortDesc (fuseMap norm wd ws d s)).take limit

/-- The hybrid fusion over a batch: `for vectors in zip(dense, sparse)`. -/
def fuseBatch (norm : Bool) (wd ws : ℚ) (dense sparse : List RankedList) (limit : Nat) :
    List RankedList :=
  (dense.zip sparse).map (fun p => fuseQuery norm wd ws p.1 p.2 limit)

/-! ### Retrieval (`Search.dense`, `Search.sparse`, `Search.resolve`) -/

/-- Model of `Search.resolve`: when `indexids` is off and `"ids"` is in the config, map
every `(position, score)` to `(lookup[position], score)`. Out-of-range
positions do not occur for a well-formed lookup table; the model totalizes
the list indexing with a default of `0`. -/
def Search.resolve (cfg : SearchConfig) (results : List RankedList) : List RankedList :=
  if !cfg.indexids && cfg.ids.isSome then
    results.map (fun r => r.map (fun p => ((cfg.ids.getD []).getD p.1 0, p.2)))
  else
    results

/-- Model of `Search.dense`: embed the queries, search the ANN index, keep only entries
with `score > 0`, then resolve ids. -/
def Search.dense (cfg : SearchConfig) (co : Collaborators) (queries : List Query) (limit : Nat) :
    List RankedList :=
  let embeddings := co.batchtransform queries
  let results := co.annSearch embeddings limit
  let results := results.map (fun r => r.filter (fun p => 0 < p.2))
  Search.resolve cfg results

/-- Model of `Search.sparse`: `self.resolve(self.scoring.batchsearch(queries, limit))`. -/
def Search.sparse (cfg : SearchConfig) (co : Collaborators) (queries : List Query) (limit : Nat) :
    List RankedList :=
  Search.resolve cfg (co.batchsearch queries limit)

/-- Model of `Search.search`: run dense and/or sparse retrieval; when both results are
truthy, fuse them (expanding a scalar weight to `[w, 1 - w]`); otherwise
`return dense if dense else sparse` under Python truthiness. -/
def Search.search (cfg : SearchConfig) (co : Collaborators) (queries : List Query) (limit : Nat)
    (weights : Weights) : Option (List RankedList) :=
  let dense := if cfg.hasAnn then some (Search.dense cfg co queries limit) else none
  let sparse := if cfg.hasScoring then some (Search.sparse cfg co queries limit) else none
  if pyTruthy dense && pyTruthy sparse then
    let w := Weights.expand weights
    some (fuseBatch cfg.isnormalized w.1 w.2 (dense.getD []) (sparse.getD []) limit)
  else
    if pyTruthy dense then dense else sparse

/-! ### Instrumented fusion: counting `scoring.isnormalized()` reads

The source consults `self.scoring.isnormalized()` inside the entry loop
(line 100), so the capability flag is read once per visited entry. The
instrumented variants thread a read counter through the same computation. -/

/-- Variant of `visitEntries` with a counter of `isnormalized()` reads: the flag is read
once in each iteration of the entry loop. -/
def visitEntriesCounted (norm : Bool) (w : ℚ) :
    Nat → RankedList → List (Nat × ℚ) × Nat → List (Nat × ℚ) × Nat
  | _, [], acc => acc
  | r, (uid, score) :: rest, (m, reads) =>
      visitEntriesCounted norm w (r + 1) rest
        (dictAdd m uid (entryContrib norm w r score), reads + 1)

/-- One query of the hybrid fusion with the `isnormalized()` read counter. -/
def fuseQueryCounted (norm : Bool) (wd ws : ℚ) (d s : RankedList) (limit : Nat)
    (reads : Nat) : RankedList × Nat :=
  let acc := visitEntriesCounted norm wd 0 (visited wd d) ([], reads)
  let acc := visitEntriesCounted norm ws 0 (visited ws s) acc
  ((sortDesc acc.1).take limit, acc.2)

/-- The hybrid fusion over a batch with the total `isnormalized()` read count
of the whole fusion call. -/
def fuseBatchCounted (norm : Bool) (wd ws : ℚ) (dense sparse : List RankedList)
    (limit : Nat) : List RankedList × Nat :=
  (dense.zip sparse).foldl
    (fun acc p =>
      let q := fuseQueryCounted norm wd ws p.1 p.2 limit acc.2
      (acc.1 ++ [q.1], q.2))
    ([], 0)

/-! ### Structured path (`Search.parse`, `Search.limit`, `Search.extract`,
`Search.dbsearch`) -/

/-- Model of `Search.parse`: parse each query with the database; when a translator is
configured and `"select"` is not in the parse, translate the raw text and
re-parse once. -/
def Search.parse (cfg : SearchConfig) (co : Collaborators) (queries : List Query) :
    List ParsedQuery :=
  queries.map (fun query =>
    let p := co.dbParse query
    if cfg.hasQuery && !p.hasSelect then co.dbParse (co.queryTranslate query) else p)

/-- One iteration of the loop in `Search.limit` for the clause
`l = query.get("limit")`:
```
if l and l.isdigit():
    l = int(l)
qlimit = l if l and l > qlimit else qlimit
```
When `l` is a truthy string that is not all digits, it is left as a string
and `l > qlimit` compares `str` with `int`, raising `TypeError`. -/
def Search.limitStep (qlimit : Nat) (l : Option String) : Except String Nat :=
  match l with
  | none => .ok qlimit
  | some s =>
    if s.isEmpty then .ok qlimit
    else if pyIsDigit s then
      .ok (if pyInt s ≠ 0 ∧ qlimit < pyInt s then pyInt s else qlimit)
    else .error "TypeError"

/-- Model of `Search.limit`: fold the largest LIMIT clause over all parsed queries,
starting from 0; a `TypeError` raised in an iteration aborts the call. -/
def Search.limit (queries : List ParsedQuery) : Except String Nat :=
  queries.foldlM (fun qlimit q => Search.limitStep qlimit q.limitClause) 0

/-- The inner loop of `Search.extract` over `query["similar"]`: append
`(x, params[0])` to the batch and, when `len(params) > 1 and
params[1].isdigit()`, keep the largest candidate limit seen so far. -/
def similarLoop (x : Nat) :
    List (String × List String) → List (Nat × String) → Nat → List (Nat × String) × Nat
  | [], equeries, candidates => (equeries, candidates)
  | params :: rest, equeries, candidates =>
      let equeries := equeries ++ [(x, params.1)]
      let candidates :=
        match params.2.head? with
        | some a => if pyIsDigit a && candidates < pyInt a then pyInt a else candidates
        | none => candidates
      similarLoop x rest equeries candidates

/-- The outer loop of `Search.extract` over `enumerate(queries)`. -/
def queryLoop :
    Nat → List ParsedQuery → List (Nat × String) → Nat → List (Nat × String) × Nat
  | _, [], equeries, candidates => (equeries, candidates)
  | x, q :: rest, equeries, candidates =>
      let acc := similarLoop x q.similar equeries candidates
      queryLoop (x + 1) rest acc.1 acc.2

/-- Check `any(query.get("where") and len(query["where"].split()) > 1 for query in
queries)`: some query has a truthy filter clause with more than one
whitespace-separated token. -/
def multitokenCheck (queries : List ParsedQuery) : Bool :=
  queries.any (fun q =>
    pyStrTruthy q.whereClause && 1 < (pySplit (q.whereClause.getD "")).length)

/-- Model of `Search.extract`: collect the embeddings sub-queries of all similar
clauses as one batch together with the number of candidates; when no
candidate limit was found, default to `limit * 10` for a multi-token filter
and `limit` otherwise. -/
def Search.extract (queries : List ParsedQuery) (limit : Nat) :
    List (Nat × String) × Nat :=
  let acc := queryLoop 0 queries [] 0
  if acc.2 = 0 then
    (acc.1, if multitokenCheck queries then limit * 10 else limit)
  else acc

/-- Model of `Search.dbsearch`: parse the queries, raise the limit to the largest
query limit, extract the embeddings sub-queries and candidate count, run one
bulk index search, then run the database search per query over that query's
slice of the bulk results. When `Search.search` returns `None` for a
non-empty sub-query batch, `enumerate(search)` raises `TypeError`. -/
def Search.dbsearch (cfg : SearchConfig) (co : Collaborators) (queries : List Query)
    (limit : Nat) (weights : Weights) : Except String (List DBRow) := do
  let qs := Search.parse cfg co queries
  let qlimit ← Search.limit qs
  let limit := max limit qlimit
  let ex := Search.extract qs limit
  let equeries := ex.1
  let candidates := ex.2
  let osearch :=
    if !equeries.isEmpty then Search.search cfg co (equeries.map (fun e => e.2)) candidates weights
    else some []
  match osearch with
  | none => .error "TypeError"
  | some search =>
    .ok (qs.enum.map (fun xq =>
      let indices := (equeries.enum.filter (fun p => xq.1 = p.2.1)).map (fun p => p.1)
      co.dbSearch xq.2 ((search.enum.filter (fun p => p.1 ∈ indices)).map (fun p => p.2)) limit))

/-- The result of a batch call: the index path returns a `None`-or-list of
per-query `RankedList`s, the database path a list of rows per query (or a
propagated error). -/
inductive CallResult where
  | indexResults (r : Option (List RankedList))
  | dbResults (r : Except String (List DBRow))

/-- Model of `Search.__call__`: default the parameters (`limit if limit else 3`,
`weights if weights is not None else 0.5`), return one empty list per query
when no index is available, run the database path when `indexids` is off and
a database is configured, else the index path. -/
def Search.call (cfg : SearchConfig) (co : Collaborators) (queries : List Query)
    (limit0 : Option Nat) (weights0 : Option Weights) : CallResult :=
  let limit := match limit0 with
    | some l => if l ≠ 0 then l else 3
    | none => 3
  let weights := weights0.getD (.scalar (1 / 2))
  if !cfg.hasAnn && !cfg.hasScoring then
    .indexResults (some (List.replicate queries.length []))
  else if !cfg.indexids && cfg.hasDatabase then
    .dbResults (Search.dbsearch cfg co queries limit weights)
  else
    .indexResults (Search.search cfg co queries limit weights)

/-! ### Statement vocabulary: accumulated contributions, candidate arguments -/

/-- Lookup of an identifier's accumulated score in the fusion dict (first
matching key). -/
def lookupScore (m : List (Nat × ℚ)) (x : Nat) : Option ℚ :=
  match m with
  | [] => none
  | (k, v) :: rest => if k = x then some v else lookupScore rest x

/-- The total contribution of the entries with identifier `x` in a visited
entry list whose first entry sits at 0-based position `r`: each such entry
adds `entryContrib` (score × weight when normalized, weight / rank
otherwise). -/
def contribFrom (norm : Bool) (w : ℚ) : Nat → RankedList → Nat → ℚ
  | _, [], _ => 0
  | r, (u, s) :: rest, x =>
      (if u = x then entryContrib norm w r s else 0) + contribFrom norm w (r + 1) rest x

/-- The candidate-count argument of one similar clause: its second argument,
when that argument is a digit string. -/
def clauseArgVal (params : String × List String) : Option Nat :=
  match params.2.head? with
  | some a => if pyIsDigit a then some (pyInt a) else none
  | none => none

/-- All numeric second arguments of all similar clauses of a batch, in
clause order. -/
def digitArgs (queries : List ParsedQuery) : List Nat :=
  ((queries.map (fun q => q.similar)).flatten).filterMap clauseArgVal

/-- The positive numeric second arguments of all similar clauses of a batch:
the explicit candidate counts of the batch. -/
def posDigitArgs (queries : List ParsedQuery) : List Nat :=
  (digitArgs queries).filter (fun n => decide (0 < n))

/-! ### Concrete instances used to evaluate the model -/

/-- A dense-only configuration: ANN index present, no sparse scoring, no
database, standard (non-`indexids`) mode. -/
def cfgDenseOnly : SearchConfig :=
  { hasAnn := true, hasScoring := false, hasDatabase := false, hasQuery := false,
    indexids := false, isnormalized := false, ids := none }

/-- A configuration with neither a dense index nor sparse scoring. -/
def cfgNoIndex : SearchConfig :=
  { hasAnn := false, hasScoring := false, hasDatabase := false, hasQuery := false,
    indexids := false, isnormalized := false, ids := none }

/-- Collaborators that return empty results everywhere. -/
def coTrivial : Collaborators :=
  { batchtransform := fun _ => [], annSearch := fun _ _ => [],
    batchsearch := fun _ _ => [], dbParse := fun _ => ⟨true, none, [], none⟩,
    queryTranslate := fun q => q, dbSearch := fun _ _ _ => 0 }

/-- Collaborators whose ANN search returns, for every vector, one hit with a
positive score and one with a negative score, and whose sparse search
returns one hit per query. -/
def coDemo : Collaborators :=
  { batchtransform := fun qs => qs.map (fun _ => []),
    annSearch := fun vs _ => vs.map (fun _ => [(0, 2), (1, -1)]),
    batchsearch := fun qs _ => qs.map (fun _ => [(1, 1)]),
    dbParse := fun _ => ⟨true, none, [], none⟩,
    queryTranslate := fun q => q, dbSearch := fun _ _ _ => 0 }

/-! ## Lemmas about the fusion accumulation dict -/

theorem lookupScore_eq_none_iff (m : List (Nat × ℚ)) (x : Nat) :
    lookupScore m x = none ↔ x ∉ m.map (fun p => p.1) := by
  induction m with
  | nil => simp [lookupScore]
  | cons p rest ih =>
      obtain ⟨k, v⟩ := p
      by_cases h : k = x
      · subst h
        simp [lookupScore]
      · simp [lookupScore, h, ih, Ne.symm h]

theorem dictAdd_lookup (m : List (Nat × ℚ)) (u : Nat) (c : ℚ) (x : Nat) :
    lookupScore (dictAdd m u c) x =
      if x = u then some ((lookupScore m x).getD 0 + c) else lookupScore m x := by
  induction m with
  | nil =>
      by_cases h : x = u
      · subst h
        simp [dictAdd, lookupScore]
      · have h2 : ¬ u = x := fun hh => h hh.symm
        simp [dictAdd, lookupScore, h, h2]
  | cons p rest ih =>
      obtain ⟨k, v⟩ := p
      by_cases hk : k = u
      · subst hk
        by_cases hx : x = k
        · subst hx
          simp [dictAdd, lookupScore]
        · have hx2 : ¬ k = x := fun hh => hx hh.symm
          simp [dictAdd, lookupScore, hx, hx2]
      · by_cases hx : k = x
        · subst hx
          have hxu : ¬ k = u := hk
          simp [dictAdd, hk, lookupScore, hxu]
        · simp [dictAdd, hk, lookupScore, hx, ih]

theorem mem_keys_dictAdd (m : List (Nat × ℚ)) (u : Nat) (c : ℚ) (x : Nat) :
    x ∈ (dictAdd m u c).map (fun p => p.1) ↔ x ∈ m.map (fun p => p.1) ∨ x = u := by
  induction m with
  | nil => simp [dictAdd]
  | cons p rest ih =>
      obtain ⟨k, v⟩ := p
      by_cases hk : k = u
      · subst hk
        simp [dictAdd]
        tauto
      · simp [dictAdd, hk, ih]
        tauto

theorem contribFrom_eq_zero (norm : Bool) (w : ℚ) (l : RankedList) :
    ∀ (r : Nat) (x : Nat), x ∉ l.map (fun p => p.1) → contribFrom norm w r l x = 0 := by
  induction l with
  | nil => intro r x _; rfl
  | cons p rest ih =>
      intro r x hx
      obtain ⟨u, s⟩ := p
      simp only [List.map_cons, List.mem_cons] at hx
      push_neg at hx
      have hu : ¬ u = x := fun h => hx.1 h.symm
      simp [contribFrom, hu, ih (r + 1) x hx.2]

/-- Accumulation invariant of the fusion entry loop: after visiting a list of
entries, an identifier's accumulated score is its previous score (default 0)
plus the total contribution of its entries; identifiers appearing in neither
the dict nor the visited entries stay absent. -/
theorem visitEntries_lookup (norm : Bool) (w : ℚ) (l : RankedList) :
    ∀ (r : Nat) (m : List (Nat × ℚ)) (x : Nat),
      lookupScore (visitEntries norm w r l m) x =
        if x ∈ m.map (fun p => p.1) ∨ x ∈ l.map (fun p => p.1) then
          some ((lookupScore m x).getD 0 + contribFrom norm w r l x)
        else none := by
  induction l with
  | nil =>
      intro r m x
      by_cases h : x ∈ m.map (fun p => p.1)
      · have hne : ¬ lookupScore m x = none := fun hn => (lookupScore_eq_none_iff m x).mp hn h
        cases hv : lookupScore m x with
        | none => exact absurd hv hne
        | some v => simp [visitEntries, contribFrom, h, hv]
      · have h0 : lookupScore m x = none := (lookupScore_eq_none_iff m x).mpr h
        simp [visitEntries, contribFrom, h, h0]
  | cons p rest ih =>
      intro r m x
      obtain ⟨u, s⟩ := p
      simp only [visitEntries]
      rw [ih]
      rw [dictAdd_lookup]
      by_cases hx : x = u
      · subst hx
        simp only [mem_keys_dictAdd]
        simp [contribFrom, add_assoc]
      · have hu : ¬ u = x := fun h => hx h.symm
        simp only [mem_keys_dictAdd, hx]
        by_cases hm : x ∈ m.map (fun p => p.1)
        · simp [contribFrom, hm, hu]
        · by_cases hr : x ∈ rest.map (fun p => p.1)
          · simp [contribFrom, hm, hr, hu, hx]
          · simp [contribFrom, hm, hr, hu, hx]

/-- C1. In hybrid fusion, for each query: every visited entry `(uid, score)`
at 1-based rank `r` adds `score × weight` (normalized sparse scores) or
`(1 / r) × weight` (unnormalized) to that identifier's accumulated score, and
a side with weight ≤ 0 is never visited (`visited` is `scores if
weights[v] > 0 else []`), so it contributes nothing: an identifier's
accumulated score is exactly the sum of the contributions of its visited
entries, and identifiers with no visited entry are absent. -/
theorem fusion_accumulated_scores (norm : Bool) (wd ws : ℚ) (d s : RankedList) (x : Nat) :
    lookupScore (fuseMap norm wd ws d s) x =
      if x ∈ (visited wd d).map (fun p => p.1) ∨ x ∈ (visited ws s).map (fun p => p.1) then
        some (contribFrom norm wd 0 (visited wd d) x + contribFrom norm ws 0 (visited ws s) x)
      else none := by
  have hmd := visitEntries_lookup norm wd (visited wd d) 0 [] x
  simp only [List.map_nil, List.not_mem_nil, false_or, lookupScore, Option.getD_none,
    zero_add] at hmd
  have hkeys : x ∈ (visitEntries norm wd 0 (visited wd d) []).map (fun p => p.1) ↔
      x ∈ (visited wd d).map (fun p => p.1) := by
    constructor
    · intro hh
      by_contra hvd
      have h0 : lookupScore (visitEntries norm wd 0 (visited wd d) []) x = none := by
        rw [hmd]; exact if_neg hvd
      exact (lookupScore_eq_none_iff _ x).mp h0 hh
    · intro hvd
      by_contra hh
      have h0 := (lookupScore_eq_none_iff _ x).mpr hh
      rw [hmd, if_pos hvd] at h0
      exact Option.noConfusion h0
  unfold fuseMap
  rw [visitEntries_lookup, hmd]
  by_cases hd : x ∈ (visited wd d).map (fun p => p.1)
  · have hmem : x ∈ (visitEntries norm wd 0 (visited wd d) []).map (fun p => p.1) :=
      hkeys.mpr hd
    simp only [hmem, hd, true_or, if_true, Option.getD_some]
  · have hmem : ¬ x ∈ (visitEntries norm wd 0 (visited wd d) []).map (fun p => p.1) :=
      fun hh => hd (hkeys.mp hh)
    simp only [hmem, hd, false_or, if_false, Option.getD_none, zero_add,
      contribFrom_eq_zero norm wd (visited wd d) 0 x hd, iff_false, eq_self_iff_true]

/-! ## Lemmas about the stable descending sort -/

theorem insertDesc_perm (p : Nat × ℚ) (l : List (Nat × ℚ)) :
    List.Perm (insertDesc p l) (p :: l) := by
  induction l with
  | nil => simp [insertDesc]
  | cons q rest ih =>
      by_cases h : p.2 < q.2
      · simp only [insertDesc, if_pos h]
        exact (ih.cons q).trans (List.Perm.swap p q rest)
      · simp [insertDesc, h]

theorem sortDesc_perm (l : List (Nat × ℚ)) : List.Perm (sortDesc l) l := by
  induction l with
  | nil => simp [sortDesc]
  | cons p rest ih =>
      exact (insertDesc_perm p (sortDesc rest)).trans (ih.cons p)

theorem insertDesc_of_forall_le (p : Nat × ℚ) (l : List (Nat × ℚ))
    (h : ∀ q ∈ l, q.2 ≤ p.2) : insertDesc p l = p :: l := by
  cases l with
  | nil => rfl
  | cons q rest =>
      have : ¬ p.2 < q.2 := not_lt.mpr (h q (List.mem_cons_self q rest))
      simp [insertDesc, this]

/-- Sorting a list that is already descending by score leaves it unchanged. -/
theorem sortDesc_of_sorted (l : List (Nat × ℚ))
    (h : l.Pairwise (fun a b => b.2 ≤ a.2)) : sortDesc l = l := by
  induction l with
  | nil => rfl
  | cons p rest ih =>
      rcases List.pairwise_cons.mp h with ⟨hp, hrest⟩
      rw [sortDesc, ih hrest, insertDesc_of_forall_le p rest hp]

/-! ## Lemmas about fresh-key accumulation (dense-only fusion) -/

theorem dictAdd_of_not_mem (m : List (Nat × ℚ)) (u : Nat) (c : ℚ)
    (h : u ∉ m.map (fun p => p.1)) : dictAdd m u c = m ++ [(u, c)] := by
  induction m with
  | nil => rfl
  | cons p rest ih =>
      obtain ⟨k, v⟩ := p
      simp only [List.map_cons, List.mem_cons] at h
      push_neg at h
      have hk : ¬ k = u := fun hh => h.1 hh.symm
      simp [dictAdd, hk, ih h.2]

/-- Visiting a list of entries with pairwise-distinct fresh identifiers under
the normalized formula appends each entry scaled by the weight. -/
theorem visitEntries_fresh (w : ℚ) (l : RankedList) :
    ∀ (r : Nat) (m : List (Nat × ℚ)),
      ((l.map (fun p => p.1)).Nodup) →
      (∀ k ∈ l.map (fun p => p.1), k ∉ m.map (fun p => p.1)) →
      visitEntries true w r l m = m ++ l.map (fun p => (p.1, p.2 * w)) := by
  induction l with
  | nil => intro r m _ _; simp [visitEntries]
  | cons p rest ih =>
      intro r m hnd hdisj
      obtain ⟨u, s⟩ := p
      simp only [List.map_cons, List.nodup_cons] at hnd
      have hu : u ∉ m.map (fun p => p.1) :=
        hdisj u (by simp)
      have step : dictAdd m u (entryContrib true w r s) = m ++ [(u, s * w)] := by
        rw [dictAdd_of_not_mem m u _ hu]; rfl
      rw [visitEntries, step, ih (r + 1) (m ++ [(u, s * w)]) hnd.2]
      · simp
      · intro k hk
        have hkm : k ∉ m.map (fun p => p.1) := hdisj k (by simp [hk])
        have hku : ¬ k = u := fun hh => hnd.1 (hh ▸ hk)
        simp [hkm, hku]

/-- C5 per-query case: with weights `(1, 0)` and normalized sparse scores, one
query's fusion reproduces its dense list when that list is sorted descending,
has distinct identifiers and at most `limit` entries. -/
theorem fuseQuery_weights_one_zero (d s : RankedList) (limit : Nat)
    (hsort : d.Pairwise (fun a b => b.2 ≤ a.2))
    (hnd : (d.map (fun p => p.1)).Nodup)
    (hlim : d.length ≤ limit) :
    fuseQuery true 1 0 d s limit = d := by
  have hv1 : visited (1 : ℚ) d = d := by simp [visited]
  have hv0 : visited (0 : ℚ) s = [] := by simp [visited]
  have hm : fuseMap true 1 0 d s = d := by
    rw [fuseMap, hv1, hv0]
    rw [visitEntries_fresh 1 d 0 [] hnd (by simp)]
    simp [visitEntries]
  rw [fuseQuery, hm, sortDesc_of_sorted d hsort, List.take_of_length_le hlim]

/-- C5. When the sparse collaborator reports normalized scores, hybrid fusion
with weights `(1, 0)` returns exactly the dense-only per-query lists, given
that dense and sparse cover the same batch and each dense list is sorted
descending by score, has pairwise-distinct identifiers and at most `limit`
entries. -/
theorem fusion_weights_one_zero_dense (dense sparse : List RankedList) (limit : Nat)
    (hlen : dense.length = sparse.length)
    (hsort : ∀ d ∈ dense, d.Pairwise (fun a b => b.2 ≤ a.2))
    (hnd : ∀ d ∈ dense, (d.map (fun p => p.1)).Nodup)
    (hlim : ∀ d ∈ dense, d.length ≤ limit) :
    fuseBatch true 1 0 dense sparse limit = dense := by
  induction dense generalizing sparse with
  | nil => simp [fuseBatch]
  | cons d dt ih =>
      cases sparse with
      | nil => simp at hlen
      | cons s st =>
          simp only [fuseBatch, List.zip_cons_cons, List.map_cons]
          have hq := fuseQuery_weights_one_zero d s limit (hsort d (by simp))
            (hnd d (by simp)) (hlim d (by simp))
          have ht := ih st (by simpa using hlen)
            (fun x hx => hsort x (by simp [hx]))
            (fun x hx => hnd x (by simp [hx]))
            (fun x hx => hlim x (by simp [hx]))
          simp only [fuseBatch] at ht
          rw [hq, ht]

/-- Witness for C5 at a concrete input. -/
theorem fusion_weights_one_zero_dense_witness :
    fuseBatch true 1 0 [[(0, 1), (1, 1 / 2)]] [[(2, 1)]] 2 = [[(0, 1), (1, 1 / 2)]] :=
  fusion_weights_one_zero_dense [[(0, 1), (1, 1 / 2)]] [[(2, 1)]] 2 (by decide)
    (by with_unfolding_all decide) (by decide) (by decide)

/-- C7. Hybrid fusion never returns more than `limit` entries for any query
of the batch. -/
theorem fusion_limit_bound (norm : Bool) (wd ws : ℚ) (dense sparse : List RankedList)
    (limit : Nat) : ∀ r ∈ fuseBatch norm wd ws dense sparse limit, r.length ≤ limit := by
  intro r hr
  rcases List.mem_map.mp hr with ⟨p, _, hp⟩
  rw [← hp, fuseQuery]
  exact List.length_take_le limit _

/-- Witness for C7 at a concrete input. -/
theorem fusion_limit_bound_witness :
    ([(0, (3 : ℚ) / 2)] : RankedList).length ≤ 1 :=
  fusion_limit_bound true 1 1 [[(0, 1), (1, 1 / 2)]] [[(0, 1 / 2)]] 1
    [(0, (3 : ℚ) / 2)] (by with_unfolding_all decide)

/-! ## Lemmas about identifier uniqueness in the fusion dict -/

theorem nodup_keys_dictAdd (m : List (Nat × ℚ)) (u : Nat) (c : ℚ)
    (h : (m.map (fun p => p.1)).Nodup) : ((dictAdd m u c).map (fun p => p.1)).Nodup := by
  induction m with
  | nil => simp [dictAdd]
  | cons p rest ih =>
      obtain ⟨k, v⟩ := p
      simp only [List.map_cons, List.nodup_cons] at h
      by_cases hk : k = u
      · subst hk
        have hstep : dictAdd ((k, v) :: rest) k c = (k, v + c) :: rest := by
          simp [dictAdd]
        rw [hstep, List.map_cons, List.nodup_cons]
        exact ⟨h.1, h.2⟩
      · simp only [dictAdd, if_neg hk, List.map_cons, List.nodup_cons]
        refine ⟨fun hmem => ?_, ih h.2⟩
        rcases (mem_keys_dictAdd rest u c k).mp hmem with hmem | hmem
        · exact h.1 hmem
        · exact hk hmem

theorem nodup_keys_visitEntries (norm : Bool) (w : ℚ) (l : RankedList) :
    ∀ (r : Nat) (m : List (Nat × ℚ)), (m.map (fun p => p.1)).Nodup →
      ((visitEntries norm w r l m).map (fun p => p.1)).Nodup := by
  induction l with
  | nil => intro r m h; exact h
  | cons p rest ih =>
      intro r m h
      obtain ⟨u, s⟩ := p
      exact ih (r + 1) _ (nodup_keys_dictAdd m u _ h)

/-- C10. Each identifier occurs at most once in a hybrid-fused per-query
result list, even when it appears in both input lists: accumulation is keyed
by identifier in a single map per query. -/
theorem fusion_ids_nodup (norm : Bool) (wd ws : ℚ) (d s : RankedList) (limit : Nat) :
    ((fuseQuery norm wd ws d s limit).map (fun p => p.1)).Nodup := by
  have hm : ((fuseMap norm wd ws d s).map (fun p => p.1)).Nodup := by
    unfold fuseMap
    exact nodup_keys_visitEntries norm ws _ 0 _
      (nodup_keys_visitEntries norm wd _ 0 [] (by simp))
  have hs : ((sortDesc (fuseMap norm wd ws d s)).map (fun p => p.1)).Nodup :=
    ((sortDesc_perm _).map (fun p => p.1)).nodup_iff.mpr hm
  rw [fuseQuery, List.map_take]
  exact hs.sublist (List.take_sublist limit _)

/-! ## Dense retrieval, dispatcher and structured-path evaluations -/

/-- C6. Every per-query result list produced by dense retrieval — after the
`score > 0` filter and after identifier resolution, which is what is handed
to fusion or returned — contains only entries with strictly positive
score. -/
theorem dense_scores_positive (cfg : SearchConfig) (co : Collaborators)
    (queries : List Query) (limit : Nat) :
    ∀ r ∈ Search.dense cfg co queries limit, ∀ p ∈ r, 0 < p.2 := by
  intro r hr p hp
  simp only [Search.dense, Search.resolve] at hr
  by_cases hc : (!cfg.indexids && cfg.ids.isSome) = true
  · rw [if_pos hc] at hr
    rcases List.mem_map.mp hr with ⟨r1, hr1, hre⟩
    subst hre
    rcases List.mem_map.mp hp with ⟨p1, hp1, hpe⟩
    rcases List.mem_map.mp hr1 with ⟨r0, _, hr0e⟩
    subst hr0e
    rcases List.mem_filter.mp hp1 with ⟨_, hpos⟩
    rw [← hpe]
    simpa using hpos
  · rw [if_neg hc] at hr
    rcases List.mem_map.mp hr with ⟨r0, _, hr0e⟩
    subst hr0e
    rcases List.mem_filter.mp hp with ⟨_, hpos⟩
    simpa using hpos

/-- Witness for C6 at a concrete input: `coDemo`'s raw ANN results contain a
negative-score entry, and the dense retrieval output keeps only the positive
one. -/
theorem dense_scores_positive_witness : (0 : ℚ) < 2 :=
  dense_scores_positive cfgDenseOnly coDemo ["a"] 3 [(0, 2)]
    (by with_unfolding_all decide) (0, 2) (by with_unfolding_all decide)

/-- C8. When neither a dense index nor sparse scoring is configured, a batch
call returns one empty result list per input query and raises no error, for
every batch, limit and weights. -/
theorem call_no_indexes (cfg : SearchConfig) (co : Collaborators) (queries : List Query)
    (limit0 : Option Nat) (weights0 : Option Weights)
    (h1 : cfg.hasAnn = false) (h2 : cfg.hasScoring = false) :
    Search.call cfg co queries limit0 weights0 =
      CallResult.indexResults (some (List.replicate queries.length [])) := by
  simp [Search.call, h1, h2]

/-- Witness for C8 at a concrete input. -/
theorem call_no_indexes_witness :
    Search.call cfgNoIndex coTrivial ["a", "b"] (some 5) none =
      CallResult.indexResults (some (List.replicate (2 : Nat) [])) :=
  call_no_indexes cfgNoIndex coTrivial ["a", "b"] (some 5) none rfl rfl

/-- C2 fails on the code: for the empty batch in a dense-only index
configuration, `Search.__call__` returns Python `None` (the empty dense
result list is falsy, so `dense if dense else sparse` falls through to the
absent sparse result), not a list of length 0. -/
theorem call_empty_batch_dense_only :
    Search.call cfgDenseOnly coTrivial [] none none = CallResult.indexResults none := rfl

/-- C3 fails on the code: a parsed query whose limit clause is a non-empty
non-numeric string survives the `isdigit` guard as a string, and the
comparison `l > qlimit` between a string and an integer raises `TypeError`
instead of contributing 0. -/
theorem limit_nonnumeric_raises :
    Search.limit [⟨true, some "abc", [], none⟩] = Except.error "TypeError" := rfl

/-! ## Candidate-count derivation (`Search.extract`) -/

theorem similarLoop_snd (x : Nat) (cls : List (String × List String)) :
    ∀ (eq : List (Nat × String)) (c : Nat),
      (similarLoop x cls eq c).2 = (cls.filterMap clauseArgVal).foldl max c := by
  induction cls with
  | nil => intro eq c; rfl
  | cons params rest ih =>
      intro eq c
      rw [similarLoop]
      cases h : params.2.head? with
      | none =>
          have harg : clauseArgVal params = none := by simp [clauseArgVal, h]
          rw [List.filterMap_cons, harg, ih]
      | some a =>
          by_cases hd : pyIsDigit a = true
          · have harg : clauseArgVal params = some (pyInt a) := by simp [clauseArgVal, h, hd]
            rw [List.filterMap_cons, harg, ih]
            have hc : (if (pyIsDigit a && decide (c < pyInt a)) = true then pyInt a else c) =
                max c (pyInt a) := by
              rcases Nat.lt_or_ge c (pyInt a) with h1 | h1
              · simp [hd, h1, Nat.max_eq_right (Nat.le_of_lt h1)]
              · simp [hd, Nat.not_lt.mpr h1, Nat.max_eq_left h1]
            rw [List.foldl_cons]
            exact congrArg (fun z => List.foldl max z (List.filterMap clauseArgVal rest)) hc
          · have hdf : pyIsDigit a = false := by
              cases hq : pyIsDigit a
              · rfl
              · exact absurd hq hd
            have harg : clauseArgVal params = none := by simp [clauseArgVal, h, hdf]
            rw [List.filterMap_cons, harg, ih]
            simp [hdf]

theorem digitArgs_cons (q : ParsedQuery) (rest : List ParsedQuery) :
    digitArgs (q :: rest) = q.similar.filterMap clauseArgVal ++ digitArgs rest := by
  simp [digitArgs, List.filterMap_append]

theorem queryLoop_snd (qs : List ParsedQuery) :
    ∀ (x : Nat) (eq : List (Nat × String)) (c : Nat),
      (queryLoop x qs eq c).2 = (digitArgs qs).foldl max c := by
  induction qs with
  | nil => intro x eq c; rfl
  | cons q rest ih =>
      intro x eq c
      rw [queryLoop, ih, similarLoop_snd, digitArgs_cons, List.foldl_append]

theorem le_foldl_max (l : List Nat) : ∀ c, c ≤ l.foldl max c := by
  induction l with
  | nil => intro c; exact Nat.le_refl c
  | cons a rest ih =>
      intro c
      exact le_trans (Nat.le_max_left c a) (ih (max c a))

theorem mem_le_foldl_max (l : List Nat) : ∀ c n, n ∈ l → n ≤ l.foldl max c := by
  induction l with
  | nil => intro c n h; cases h
  | cons a rest ih =>
      intro c n h
      rcases List.mem_cons.mp h with h | h
      · subst h
        exact le_trans (Nat.le_max_right c n) (le_foldl_max rest (max c n))
      · exact ih (max c a) n h

theorem foldl_max_mem (l : List Nat) : ∀ c, l.foldl max c = c ∨ l.foldl max c ∈ l := by
  induction l with
  | nil => intro c; exact Or.inl rfl
  | cons a rest ih =>
      intro c
      rcases ih (max c a) with h | h
      · rcases Nat.le_total c a with hca | hca
        · right
          rw [List.foldl_cons, h, Nat.max_eq_right hca]
          exact List.mem_cons_self a rest
        · left
          rw [List.foldl_cons, h, Nat.max_eq_left hca]
      · right
        exact List.mem_cons.mpr (Or.inr (by rw [List.foldl_cons]; exact h))

theorem foldl_max_filter_pos (l : List Nat) : ∀ c,
    (l.filter (fun n => decide (0 < n))).foldl max c = l.foldl max c := by
  induction l with
  | nil => intro c; rfl
  | cons a rest ih =>
      intro c
      by_cases ha : 0 < a
      · have hdec : decide (0 < a) = true := by simpa using ha
        simp only [List.filter_cons, hdec, eq_self_iff_true, if_true, List.foldl_cons]
        exact ih (max c a)
      · have ha0 : a = 0 := Nat.eq_zero_of_not_pos ha
        subst ha0
        have hdec : decide ((0 : Nat) < 0) = false := rfl
        rw [List.filter_cons, hdec, if_neg Bool.false_ne_true, List.foldl_cons, Nat.max_zero]
        exact ih c

theorem posDigitArgs_pos (qs : List ParsedQuery) : ∀ n ∈ posDigitArgs qs, 0 < n := by
  intro n hn
  rcases List.mem_filter.mp hn with ⟨_, h⟩
  simpa using h

/-- The candidates component of `Search.extract` equals the maximum of the
positive explicit candidate arguments, with the multi-token default when
that maximum is 0 (no positive argument). -/
theorem extract_candidates_eq (qs : List ParsedQuery) (limit : Nat) :
    (Search.extract qs limit).2 =
      if (posDigitArgs qs).foldl max 0 = 0 then
        (if multitokenCheck qs then limit * 10 else limit)
      else (posDigitArgs qs).foldl max 0 := by
  unfold Search.extract
  have h2 : (queryLoop 0 qs [] 0).2 = (posDigitArgs qs).foldl max 0 := by
    rw [queryLoop_snd qs 0 [] 0, posDigitArgs, foldl_max_filter_pos]
  by_cases h : (queryLoop 0 qs [] 0).2 = 0
  · rw [h] at h2
    simp [h, ← h2]
  · rw [← h2]
    simp [h]

/-- C4. The shared candidate count of the structured path is the largest
explicit positive-integer second argument among all similarity clauses of
the batch; when no such argument exists, it defaults to `limit * 10` if some
parsed query has a filter clause with more than one whitespace-separated
token, and to `limit` otherwise. -/
theorem extract_candidate_count (qs : List ParsedQuery) (limit : Nat) :
    if posDigitArgs qs = [] then
      (Search.extract qs limit).2 = (if multitokenCheck qs then limit * 10 else limit)
    else
      ((Search.extract qs limit).2 ∈ posDigitArgs qs ∧
        ∀ n ∈ posDigitArgs qs, n ≤ (Search.extract qs limit).2) := by
  rw [extract_candidates_eq]
  by_cases hp : posDigitArgs qs = []
  · simp [hp]
  · rw [if_neg hp]
    obtain ⟨n0, hn0⟩ := List.exists_mem_of_ne_nil _ hp
    have hpos : 0 < n0 := posDigitArgs_pos qs n0 hn0
    have hle : n0 ≤ (posDigitArgs qs).foldl max 0 := mem_le_foldl_max _ 0 n0 hn0
    have hne : ¬ (posDigitArgs qs).foldl max 0 = 0 := by omega
    rw [if_neg hne]
    refine ⟨?_, fun n hn => mem_le_foldl_max _ 0 n hn⟩
    rcases foldl_max_mem (posDigitArgs qs) 0 with h | h
    · exact absurd h hne
    · exact h

/-- Witness for C4 at a concrete input: two similarity clauses with explicit
candidate arguments 5 and 20. -/
theorem extract_candidate_count_witness :
    (Search.extract [⟨true, none, [("q1", ["5"]), ("q2", ["20"])], none⟩] 3).2 ∈
      posDigitArgs [⟨true, none, [("q1", ["5"]), ("q2", ["20"])], none⟩] := by
  have h := extract_candidate_count [⟨true, none, [("q1", ["5"]), ("q2", ["20"])], none⟩] 3
  rw [if_neg (by with_unfolding_all decide)] at h
  exact h.1

/-! ## Read count of the `isnormalized()` capability flag -/

theorem visitEntriesCounted_spec (norm : Bool) (w : ℚ) (l : RankedList) :
    ∀ (r : Nat) (m : List (Nat × ℚ)) (c : Nat),
      visitEntriesCounted norm w r l (m, c) = (visitEntries norm w r l m, c + l.length) := by
  induction l with
  | nil => intro r m c; rfl
  | cons p rest ih =>
      intro r m c
      obtain ⟨u, s⟩ := p
      rw [visitEntriesCounted, ih]
      show (visitEntries norm w (r + 1) rest (dictAdd m u (entryContrib norm w r s)),
        c + 1 + rest.length) = _
      rw [Prod.mk.injEq]
      exact ⟨rfl, by simp only [List.length_cons]; omega⟩

theorem fuseQueryCounted_spec (norm : Bool) (wd ws : ℚ) (d s : RankedList) (limit : Nat)
    (c : Nat) :
    fuseQueryCounted norm wd ws d s limit c =
      (fuseQuery norm wd ws d s limit,
        c + (visited wd d).length + (visited ws s).length) := by
  simp only [fuseQueryCounted, visitEntriesCounted_spec]
  rfl

theorem fuseFoldCounted_spec (norm : Bool) (wd ws : ℚ) (limit : Nat)
    (l : List (RankedList × RankedList)) :
    ∀ (acc : List RankedList × Nat),
      l.foldl (fun acc p =>
          let q := fuseQueryCounted norm wd ws p.1 p.2 limit acc.2
          (acc.1 ++ [q.1], q.2)) acc =
        (acc.1 ++ l.map (fun p => fuseQuery norm wd ws p.1 p.2 limit),
          acc.2 + (l.map (fun p => (visited wd p.1).length + (visited ws p.2).length)).sum) := by
  induction l with
  | nil => intro acc; simp
  | cons p rest ih =>
      intro acc
      rw [List.foldl_cons, ih]
      simp only [fuseQueryCounted_spec, List.map_cons, List.sum_cons, Prod.mk.injEq]
      refine ⟨?_, ?_⟩
      · simp
      · omega

theorem fuseBatchCounted_spec (norm : Bool) (wd ws : ℚ) (dense sparse : List RankedList)
    (limit : Nat) :
    fuseBatchCounted norm wd ws dense sparse limit =
      (fuseBatch norm wd ws dense sparse limit,
        ((dense.zip sparse).map
          (fun p => (visited wd p.1).length + (visited ws p.2).length)).sum) := by
  unfold fuseBatchCounted
  rw [fuseFoldCounted_spec]
  simp [fuseBatch]

/-- C9 as stated fails on the code: in a hybrid fusion call over one query
with one dense and one sparse visited entry, the `isnormalized()` capability
flag is read twice — once per visited entry, inside the entry loop — not
once for the whole call. -/
theorem fusion_flag_read_counterexample :
    (fuseBatchCounted true 1 1 [[(0, 1)]] [[(1, 1)]] 3).2 = 2 ∧
      (fuseBatchCounted true 1 1 [[(0, 1)]] [[(1, 1)]] 3).2 ≠ 1 := by
  with_unfolding_all decide

/-- C9 amended. During a hybrid fusion call, the `isnormalized()` capability
flag is consulted once per visited entry (total reads = number of visited
entries across the batch), not once per call; since the flag is a fixed
capability of the sparse collaborator, every entry of the call is still
combined with the same fusion formula, so the instrumented fusion computes
exactly the uninstrumented one. -/
theorem fusion_flag_read_per_entry (norm : Bool) (wd ws : ℚ)
    (dense sparse : List RankedList) (limit : Nat) :
    (fuseBatchCounted norm wd ws dense sparse limit).2 =
      ((dense.zip sparse).map
        (fun p => (visited wd p.1).length + (visited ws p.2).length)).sum ∧
    (fuseBatchCounted norm wd ws dense sparse limit).1 =
      fuseBatch norm wd ws dense sparse limit := by
  rw [fuseBatchCounted_spec]
  exact ⟨rfl, rfl⟩

end Txtai
